import Mathlib

/-!
Shallow embedding of the Blender add-on "VSE Extend Strips to Next"
(file `__init__.py`, operator `SEQUENCER_OT_extend_to_next_strip.execute`).

Modelling decisions, all read off the source:

* A Blender sequence strip is modelled by `Strip`.  The field `id` stands for
  the object identity of the `bpy` strip (Python's `list.index` and `==` on
  `bpy` strips compare wrapped pointers, i.e. identity).  `channel` is an
  integer, `frame_start` is a rational (the Blender API exposes it as a float;
  we use exact rationals, which subsume every representable float value), and
  `frame_final_end` is an integer (Blender stores it as an int property; the
  operator only ever writes the integer `int(round(...))` into it).
* `context.sequences` and `context.selected_sequences` become the two input
  lists `strips_at_level` and `selected_strips` of `runExtend`.
* Python's `sorted` / `list.sort` is a stable sort; we model both sorts with
  `List.insertionSort`, which is stable, hence extensionally equal to it.
* The strips are mutable objects owned by the host.  We model the heap by a
  list of `Strip` values addressed by `id`: reading a strip is `findStrip`,
  writing `frame_final_end` is `setEnd`.  The snapshot list
  `all_strips_sorted_by_time` is kept as its list of ids, and every field
  access during the loop goes through the live heap (only `frame_final_end`
  is ever mutated, so `channel` / `frame_start` reads agree with the
  snapshot).
* Python 3's `round` rounds to the nearest integer with ties to even; on a
  float argument it acts on the exact represented value, so `pythonRound` on
  the exact rational is a faithful model.
-/

attribute [local semireducible] Rat.sub Rat.add Rat.mul Rat.inv

/-- A timeline strip as the operator sees it.  `id` models object identity,
`channel` the lane, `frame_start` the (possibly fractional) start frame,
`frame_final_end` the inclusive integer end frame. -/
structure Strip where
  id : ℕ
  channel : ℤ
  frame_start : ℚ
  frame_final_end : ℤ
  deriving DecidableEq, Repr

/-- The ids of a list of strips. -/
def stripIds (l : List Strip) : List ℕ := l.map (fun s => s.id)

/-- Source line 99: `max_gap = 5000`. -/
def max_gap : ℚ := 5000

/-- Python 3's built-in `round` on the exact value of its argument:
round to the nearest integer, ties to the even integer.
Models line 115, `int(round(target_end_frame))` (on an `int` result of
`round`, `int` is the identity). -/
def pythonRound (q : ℚ) : ℤ :=
  if q - ⌊q⌋ < 1/2 then ⌊q⌋
  else if q - ⌊q⌋ > 1/2 then ⌊q⌋ + 1
  else if ⌊q⌋ % 2 = 0 then ⌊q⌋ else ⌊q⌋ + 1

/-- Reading the live strip object with identity `i` from the heap. -/
def findStrip (live : List Strip) (i : ℕ) : Option Strip :=
  live.find? (fun s => s.id == i)

/-- The heap update performed on one strip object by
`current_strip.frame_final_end = target_end_frame_int` (line 127). -/
def updEnd (i : ℕ) (v : ℤ) (s : Strip) : Strip :=
  if s.id = i then { s with frame_final_end := v } else s

/-- Writing `frame_final_end := v` to the strip with identity `i`. -/
def setEnd (live : List Strip) (i : ℕ) (v : ℤ) : List Strip :=
  live.map (updEnd i v)

/-- The sort key of line 40: `key=lambda s: (s.channel, s.frame_start)`,
as the total preorder it induces. -/
def selLe (a b : Strip) : Prop :=
  a.channel < b.channel ∨ (a.channel = b.channel ∧ a.frame_start ≤ b.frame_start)

instance : DecidableRel selLe := fun a b =>
  inferInstanceAs (Decidable (a.channel < b.channel ∨ (a.channel = b.channel ∧ a.frame_start ≤ b.frame_start)))

/-- The sort key of line 48: `key=lambda s: s.frame_start`. -/
def allLe (a b : Strip) : Prop := a.frame_start ≤ b.frame_start

instance : DecidableRel allLe := fun a b =>
  inferInstanceAs (Decidable (a.frame_start ≤ b.frame_start))

instance : IsTotal Strip allLe := ⟨fun a b => le_total a.frame_start b.frame_start⟩

instance : IsTrans Strip allLe := ⟨fun _ _ _ h h' => le_trans h h'⟩

/-- Line 40: `sorted_selected_strips = sorted(selected_strips, key=lambda s:
(s.channel, s.frame_start))`.  Python's `sorted` is stable; so is
`insertionSort`. -/
def sorted_selected_strips (selected : List Strip) : List Strip :=
  List.insertionSort selLe selected

/-- Lines 47 and 48: the full strip list sorted (stably) by start frame. -/
def all_strips_sorted_by_time (strips : List Strip) : List Strip :=
  List.insertionSort allLe strips

/-- The successor test of lines 78 and 79: same channel, and
`potential_next.frame_start > current_strip.frame_final_end`. -/
def isNextStrip (cur t : Strip) : Bool :=
  t.channel == cur.channel && decide ((cur.frame_final_end : ℚ) < t.frame_start)

/-- The elements strictly after the first occurrence of `i`, or `none` when
`i` does not occur.  Models `idx = lst.index(x)` followed by the scan over
`lst[idx+1:]` (lines 60 and 72); `list.index` raises `ValueError` when the
element is absent, which the source turns into a `continue`. -/
def restAfter (ids : List ℕ) (i : ℕ) : Option (List ℕ) :=
  match ids with
  | [] => none
  | j :: rest => if j = i then some rest else restAfter rest i

/-- The scan of lines 70 to 82: walk the tail of the time-sorted snapshot and
return the first live strip in the same channel starting strictly after the
current strip's (current) end frame. -/
def findNext (live : List Strip) (ids : List ℕ) (cur : Strip) : Option Strip :=
  match ids with
  | [] => none
  | i :: rest =>
    match findStrip live i with
    | none => findNext live rest cur
    | some t => if isNextStrip cur t then some t else findNext live rest cur

/-- Lines 59 to 82 for one selected strip identity: locate it in the sorted
snapshot (skip if absent), read its live state, and scan for the next strip
in the same channel.  Returns the pair (current strip, next strip). -/
def findSucc (live : List Strip) (allIds : List ℕ) (i : ℕ) : Option (Strip × Strip) :=
  match restAfter allIds i with
  | none => none
  | some rest =>
    match findStrip live i with
    | none => none
    | some cur => Option.map (fun t => (cur, t)) (findNext live rest cur)

/-- Lines 88 to 137 given a successor start frame `v`: compute
`num_gap_frames = v - (end + 1)`, require `0 < gap <= max_gap`, round the
target end `v - 1` to an integer, require the prospective duration
`target - start + 1` to be positive, and return the integer end frame to
write (or `none` when any check fails and the strip is skipped). -/
def gapDecisionV (current_strip : Strip) (v : ℚ) : Option ℤ :=
  let num_gap_frames : ℚ := v - ((current_strip.frame_final_end : ℚ) + 1)
  if 0 < num_gap_frames ∧ num_gap_frames ≤ max_gap then
    let target_end_frame : ℚ := v - 1
    let target_end_frame_int : ℤ := pythonRound target_end_frame
    let new_duration_potential : ℚ :=
      (target_end_frame_int : ℚ) - current_strip.frame_start + 1
    if 0 < new_duration_potential then some target_end_frame_int else none
  else none

/-- The gap and duration checks against the found `next_strip`; only its
`frame_start` is read (lines 92, 109, 118). -/
def gapDecision (current_strip next_strip : Strip) : Option ℤ :=
  gapDecisionV current_strip next_strip.frame_start

/-- The whole loop body of lines 55 to 137 for one selected strip identity,
as a decision: `some t` means "write `frame_final_end := t` and count the
strip as processed", `none` means the strip is skipped for whatever reason
(absent from the snapshot, no successor, gap out of range, bad duration). -/
def decideStrip (live : List Strip) (allIds : List ℕ) (i : ℕ) : Option ℤ :=
  match findSucc live allIds i with
  | none => none
  | some (cur, nxt) => gapDecision cur nxt

/-- The three `self.report` outcomes of lines 34, 153 and 155. -/
inductive Report where
  | noStripsSelected
  | finishedExtended (n : ℕ)
  | finishedNoneExtended
  deriving DecidableEq, Repr

/-- The observable result of one run: final strip heap, `processed_count`,
and the reported summary. -/
structure RunResult where
  strips : List Strip
  processed_count : ℕ
  report : Report
  deriving DecidableEq, Repr

/-- The operator body `SEQUENCER_OT_extend_to_next_strip.execute`
(lines 24 to 161): bail out on an empty selection, sort the selection by
(channel, start) and the full list by start, then fold the per-strip
decision over the selected strips in order, mutating the heap and counting
the extended strips, and finally report. -/
def runExtend (strips_at_level selected_strips : List Strip) : RunResult :=
  if selected_strips.isEmpty then
    { strips := strips_at_level, processed_count := 0, report := Report.noStripsSelected }
  else
    let selIds := stripIds (sorted_selected_strips selected_strips)
    let allIds := stripIds (all_strips_sorted_by_time strips_at_level)
    let result := selIds.foldl (fun st i =>
      match decideStrip st.1 allIds i with
      | some t => (setEnd st.1 i t, st.2 + 1)
      | none => (st.1, st.2)) (strips_at_level, 0)
    { strips := result.1, processed_count := result.2,
      report := if 0 < result.2 then Report.finishedExtended result.2
                else Report.finishedNoneExtended }

/-- The decision for a strip computed against the pre-run heap and the
pre-run snapshot: the heart of the run's characterisation. -/
def initialDecision (strips : List Strip) (i : ℕ) : Option ℤ :=
  decideStrip strips (stripIds (all_strips_sorted_by_time strips)) i

/-- The successor search for a strip against the pre-run heap and snapshot. -/
def initialSucc (strips : List Strip) (i : ℕ) : Option (Strip × Strip) :=
  findSucc strips (stripIds (all_strips_sorted_by_time strips)) i

/-- Apply an optional end-frame write to a strip. -/
def applyDecision (d : Option ℤ) (s : Strip) : Strip :=
  match d with
  | some t => { s with frame_final_end := t }
  | none => s

/-- One iteration of the loop of line 55, as folded by `runExtend`. -/
def runStep (allIds : List ℕ) (st : List Strip × ℕ) (i : ℕ) : List Strip × ℕ :=
  match decideStrip st.1 allIds i with
  | some t => (setEnd st.1 i t, st.2 + 1)
  | none => (st.1, st.2)

/-! Basic facts about the heap model. -/

@[simp] theorem updEnd_id (i : ℕ) (v : ℤ) (s : Strip) : (updEnd i v s).id = s.id := by
  unfold updEnd; split <;> rfl

@[simp] theorem updEnd_channel (i : ℕ) (v : ℤ) (s : Strip) :
    (updEnd i v s).channel = s.channel := by
  unfold updEnd; split <;> rfl

@[simp] theorem updEnd_frame_start (i : ℕ) (v : ℤ) (s : Strip) :
    (updEnd i v s).frame_start = s.frame_start := by
  unfold updEnd; split <;> rfl

theorem updEnd_of_ne {i : ℕ} {s : Strip} (v : ℤ) (h : s.id ≠ i) : updEnd i v s = s := by
  unfold updEnd; simp [h]

theorem updEnd_of_eq {i : ℕ} {s : Strip} (v : ℤ) (h : s.id = i) :
    updEnd i v s = { s with frame_final_end := v } := by
  unfold updEnd; simp [h]

@[simp] theorem applyDecision_id (d : Option ℤ) (s : Strip) :
    (applyDecision d s).id = s.id := by
  unfold applyDecision; cases d <;> rfl

@[simp] theorem applyDecision_channel (d : Option ℤ) (s : Strip) :
    (applyDecision d s).channel = s.channel := by
  unfold applyDecision; cases d <;> rfl

@[simp] theorem applyDecision_frame_start (d : Option ℤ) (s : Strip) :
    (applyDecision d s).frame_start = s.frame_start := by
  unfold applyDecision; cases d <;> rfl

@[simp] theorem applyDecision_none (s : Strip) : applyDecision none s = s := rfl

@[simp] theorem stripIds_nil : stripIds [] = [] := rfl

@[simp] theorem stripIds_cons (s : Strip) (l : List Strip) :
    stripIds (s :: l) = s.id :: stripIds l := rfl

theorem mem_stripIds_of_mem {s : Strip} {l : List Strip} (h : s ∈ l) :
    s.id ∈ stripIds l := List.mem_map_of_mem _ h

theorem findStrip_eq_some {live : List Strip} {i : ℕ} {s : Strip}
    (h : findStrip live i = some s) : s ∈ live ∧ s.id = i := by
  refine ⟨List.mem_of_find?_eq_some h, ?_⟩
  have := List.find?_some h
  simpa using this

theorem findStrip_self {live : List Strip} (hnd : (stripIds live).Nodup)
    {s : Strip} (hs : s ∈ live) : findStrip live s.id = some s := by
  induction live with
  | nil => cases hs
  | cons a l ih =>
    simp only [stripIds_cons, List.nodup_cons] at hnd
    rcases List.mem_cons.mp hs with rfl | hs'
    · simp [findStrip, List.find?]
    · have hne : a.id ≠ s.id := fun h => hnd.1 (h ▸ mem_stripIds_of_mem hs')
      have : (a.id == s.id) = false := by simpa using hne
      simp only [findStrip, List.find?, this]
      exact ih hnd.2 hs'

theorem findStrip_setEnd (live : List Strip) (j : ℕ) (v : ℤ) (i : ℕ) :
    findStrip (setEnd live j v) i = Option.map (updEnd j v) (findStrip live i) := by
  unfold findStrip setEnd
  rw [List.find?_map]
  simp [Function.comp_def]

@[simp] theorem stripIds_setEnd (live : List Strip) (j : ℕ) (v : ℤ) :
    stripIds (setEnd live j v) = stripIds live := by
  unfold stripIds setEnd
  rw [List.map_map]
  simp [Function.comp_def]

@[simp] theorem isNextStrip_updEnd (cur : Strip) (j : ℕ) (v : ℤ) (t : Strip) :
    isNextStrip cur (updEnd j v t) = isNextStrip cur t := by
  unfold isNextStrip updEnd; split <;> rfl

@[simp] theorem gapDecision_updEnd (cur : Strip) (j : ℕ) (v : ℤ) (nxt : Strip) :
    gapDecision cur (updEnd j v nxt) = gapDecision cur nxt := by
  unfold gapDecision; rw [updEnd_frame_start]

theorem findNext_setEnd (live : List Strip) (j : ℕ) (v : ℤ) (ids : List ℕ) (cur : Strip) :
    findNext (setEnd live j v) ids cur = Option.map (updEnd j v) (findNext live ids cur) := by
  induction ids with
  | nil => rfl
  | cons i rest ih =>
    simp only [findNext, findStrip_setEnd]
    cases h : findStrip live i with
    | none => simpa using ih
    | some u =>
      simp only [Option.map_some']
      rw [isNextStrip_updEnd]
      cases hu : isNextStrip cur u with
      | false => simpa [hu] using ih
      | true => simp [hu]

theorem findNext_eq_some {live : List Strip} {ids : List ℕ} {cur t : Strip}
    (h : findNext live ids cur = some t) : t ∈ live ∧ isNextStrip cur t = true := by
  induction ids with
  | nil => cases h
  | cons i rest ih =>
    rw [findNext] at h
    cases hf : findStrip live i with
    | none => rw [hf] at h; exact ih h
    | some u =>
      rw [hf] at h
      cases hu : isNextStrip cur u with
      | false =>
        simp only [hu, Bool.false_eq_true, if_false] at h
        exact ih h
      | true =>
        simp only [hu, if_true] at h
        obtain rfl : u = t := Option.some.inj h
        exact ⟨(findStrip_eq_some hf).1, hu⟩

theorem decideStrip_setEnd (live : List Strip) (allIds : List ℕ) {j i : ℕ} (v : ℤ)
    (hij : j ≠ i) :
    decideStrip (setEnd live j v) allIds i = decideStrip live allIds i := by
  unfold decideStrip findSucc
  cases hr : restAfter allIds i with
  | none => rfl
  | some rest =>
    simp only [findStrip_setEnd]
    cases hf : findStrip live i with
    | none => rfl
    | some cur =>
      have hcur : updEnd j v cur = cur :=
        updEnd_of_ne v (by rw [(findStrip_eq_some hf).2]; exact fun h => hij h.symm)
      simp only [Option.map_some', hcur, findNext_setEnd]
      cases hn : findNext live rest cur with
      | none => rfl
      | some nxt => simp

/-! The per-strip characterisation of the whole run. -/

theorem runExtend_eq_foldl (strips sel : List Strip) (h : ¬ sel.isEmpty) :
    runExtend strips sel =
      { strips := ((stripIds (sorted_selected_strips sel)).foldl
          (runStep (stripIds (all_strips_sorted_by_time strips))) (strips, 0)).1,
        processed_count := ((stripIds (sorted_selected_strips sel)).foldl
          (runStep (stripIds (all_strips_sorted_by_time strips))) (strips, 0)).2,
        report := if 0 < ((stripIds (sorted_selected_strips sel)).foldl
            (runStep (stripIds (all_strips_sorted_by_time strips))) (strips, 0)).2
          then Report.finishedExtended ((stripIds (sorted_selected_strips sel)).foldl
            (runStep (stripIds (all_strips_sorted_by_time strips))) (strips, 0)).2
          else Report.finishedNoneExtended } := by
  unfold runExtend runStep
  simp [h]

theorem foldl_runStep_spec (strips : List Strip) (allIds : List ℕ) :
    ∀ (ids : List ℕ) (live : List Strip) (c : ℕ),
      ids.Nodup →
      (∀ i ∈ ids, decideStrip live allIds i = decideStrip strips allIds i) →
      (ids.foldl (runStep allIds) (live, c)).2
          = c + ids.countP (fun i => (decideStrip strips allIds i).isSome)
      ∧ (ids.foldl (runStep allIds) (live, c)).1
          = live.map (fun s =>
              applyDecision (if s.id ∈ ids then decideStrip strips allIds s.id else none) s) := by
  intro ids
  induction ids with
  | nil =>
    intro live c _ _
    simp
  | cons i rest ih =>
    intro live c hnd hinv
    have hi : decideStrip live allIds i = decideStrip strips allIds i :=
      hinv i (List.mem_cons_self i rest)
    have hnd' := (List.nodup_cons.mp hnd)
    cases hd : decideStrip strips allIds i with
    | some t =>
      have hstep : runStep allIds (live, c) i = (setEnd live i t, c + 1) := by
        unfold runStep; rw [hi, hd]
      have hinv' : ∀ j ∈ rest, decideStrip (setEnd live i t) allIds j
          = decideStrip strips allIds j := by
        intro j hj
        have hij : i ≠ j := fun h => hnd'.1 (h ▸ hj)
        rw [decideStrip_setEnd live allIds t hij, hinv j (List.mem_cons_of_mem _ hj)]
      obtain ⟨hcount, hmap⟩ := ih (setEnd live i t) (c + 1) hnd'.2 hinv'
      constructor
      · rw [List.foldl_cons, hstep, hcount, List.countP_cons]
        simp only [hd, Option.isSome_some, if_true]
        omega
      · rw [List.foldl_cons, hstep, hmap]
        unfold setEnd
        rw [List.map_map]
        apply List.map_congr_left
        intro s _
        simp only [Function.comp_apply, updEnd_id]
        by_cases hsi : s.id = i
        · have h1 : s.id ∉ rest := hsi ▸ hnd'.1
          rw [if_neg h1, if_pos (show s.id ∈ i :: rest by simp [hsi]), applyDecision_none,
            updEnd_of_eq t hsi, hsi, hd]
          simp [applyDecision, hsi]
        · rw [updEnd_of_ne t hsi]
          by_cases hr : s.id ∈ rest
          · rw [if_pos hr, if_pos (List.mem_cons_of_mem _ hr)]
          · rw [if_neg hr, if_neg (by simp [List.mem_cons, hsi, hr])]
    | none =>
      have hstep : runStep allIds (live, c) i = (live, c) := by
        unfold runStep; rw [hi, hd]
      have hinv' : ∀ j ∈ rest, decideStrip live allIds j = decideStrip strips allIds j :=
        fun j hj => hinv j (List.mem_cons_of_mem _ hj)
      obtain ⟨hcount, hmap⟩ := ih live c hnd'.2 hinv'
      constructor
      · rw [List.foldl_cons, hstep, hcount, List.countP_cons]
        simp [hd]
      · rw [List.foldl_cons, hstep, hmap]
        apply List.map_congr_left
        intro s _
        by_cases hsi : s.id = i
        · rw [if_pos (show s.id ∈ i :: rest by simp [hsi])]
          rw [hsi, hd, ite_self]
        · by_cases hr : s.id ∈ rest
          · rw [if_pos hr, if_pos (List.mem_cons_of_mem _ hr)]
          · rw [if_neg hr, if_neg (by simp [List.mem_cons, hsi, hr])]

theorem perm_sorted_selected (sel : List Strip) :
    (stripIds (sorted_selected_strips sel)).Perm (stripIds sel) :=
  (List.perm_insertionSort selLe sel).map _

theorem perm_sorted_all (strips : List Strip) :
    (stripIds (all_strips_sorted_by_time strips)).Perm (stripIds strips) :=
  (List.perm_insertionSort allLe strips).map _

/-- The run's final heap, strip by strip: every strip keeps its identity,
channel and start; a strip's end frame is rewritten exactly when its id is
selected and the decision computed against the pre-run state says so. -/
theorem runExtend_strips_eq (strips sel : List Strip) (Hsel : (stripIds sel).Nodup) :
    (runExtend strips sel).strips = strips.map (fun s =>
      applyDecision (if s.id ∈ stripIds sel then initialDecision strips s.id else none) s) := by
  by_cases hempty : sel.isEmpty
  · have : sel = [] := List.isEmpty_iff.mp hempty
    subst this
    unfold runExtend
    simp
  · rw [runExtend_eq_foldl strips sel hempty]
    have hnd : (stripIds (sorted_selected_strips sel)).Nodup :=
      (perm_sorted_selected sel).nodup_iff.mpr Hsel
    obtain ⟨_, hmap⟩ := foldl_runStep_spec strips
      (stripIds (all_strips_sorted_by_time strips))
      (stripIds (sorted_selected_strips sel)) strips 0 hnd (fun _ _ => rfl)
    rw [hmap]
    apply List.map_congr_left
    intro s _
    have hmemiff : s.id ∈ stripIds (sorted_selected_strips sel) ↔ s.id ∈ stripIds sel :=
      (perm_sorted_selected sel).mem_iff
    by_cases hm : s.id ∈ stripIds sel
    · rw [if_pos (hmemiff.mpr hm), if_pos hm]
      rfl
    · rw [if_neg (fun h => hm (hmemiff.mp h)), if_neg hm]

/-- The reported count, as the number of selected ids whose pre-run decision
is a write. -/
theorem runExtend_count_eq (strips sel : List Strip) (Hsel : (stripIds sel).Nodup) :
    (runExtend strips sel).processed_count
      = (stripIds sel).countP (fun i => (initialDecision strips i).isSome) := by
  by_cases hempty : sel.isEmpty
  · have : sel = [] := List.isEmpty_iff.mp hempty
    subst this
    unfold runExtend
    simp
  · rw [runExtend_eq_foldl strips sel hempty]
    have hnd : (stripIds (sorted_selected_strips sel)).Nodup :=
      (perm_sorted_selected sel).nodup_iff.mpr Hsel
    obtain ⟨hcount, _⟩ := foldl_runStep_spec strips
      (stripIds (all_strips_sorted_by_time strips))
      (stripIds (sorted_selected_strips sel)) strips 0 hnd (fun _ _ => rfl)
    rw [hcount]
    rw [(perm_sorted_selected sel).countP_eq]
    simp [initialDecision]

/-- Reading any strip in the final heap. -/
theorem findStrip_runExtend (strips sel : List Strip) (Hsel : (stripIds sel).Nodup)
    (k : ℕ) :
    findStrip (runExtend strips sel).strips k
      = Option.map
          (applyDecision (if k ∈ stripIds sel then initialDecision strips k else none))
          (findStrip strips k) := by
  rw [runExtend_strips_eq strips sel Hsel]
  unfold findStrip
  rw [List.find?_map]
  have hpred : ((fun s => s.id == k) ∘ fun s =>
      applyDecision (if s.id ∈ stripIds sel then initialDecision strips s.id else none) s)
      = fun s => s.id == k := by
    funext s
    simp [Function.comp_apply]
  rw [hpred]
  cases hf : List.find? (fun s => s.id == k) strips with
  | none => rfl
  | some s =>
    have hk : s.id = k := by simpa using List.find?_some hf
    simp [hk]

/-- Strips whose id is not selected come out of the run untouched. -/
theorem findStrip_runExtend_not_selected (strips sel : List Strip)
    (Hsel : (stripIds sel).Nodup) (k : ℕ) (hk : k ∉ stripIds sel) :
    findStrip (runExtend strips sel).strips k = findStrip strips k := by
  rw [findStrip_runExtend strips sel Hsel k, if_neg hk]
  cases findStrip strips k <;> rfl

/-! Facts about Python rounding. -/

theorem pythonRound_intCast (m : ℤ) : pythonRound (m : ℚ) = m := by
  unfold pythonRound
  rw [Int.floor_intCast]
  norm_num

theorem pythonRound_ge (q : ℚ) : q - 1/2 ≤ (pythonRound q : ℚ) := by
  unfold pythonRound
  have hfl : (⌊q⌋ : ℚ) ≤ q := Int.floor_le q
  have hfu : q < ⌊q⌋ + 1 := Int.lt_floor_add_one q
  split_ifs with h1 h2 h3 <;> push_cast <;> linarith

theorem pythonRound_lt (q : ℚ) : (pythonRound q : ℚ) < q + 1 := by
  unfold pythonRound
  have hfl : (⌊q⌋ : ℚ) ≤ q := Int.floor_le q
  have hfu : q < ⌊q⌋ + 1 := Int.lt_floor_add_one q
  split_ifs with h1 h2 h3 <;> push_cast <;> linarith

theorem le_pythonRound_of_int_lt {e : ℤ} {q : ℚ} (h : (e : ℚ) < q) : e ≤ pythonRound q := by
  have h1 : (e : ℚ) - 1 < (pythonRound q : ℚ) := by
    have := pythonRound_ge q
    linarith
  have h2 : e - 1 < pythonRound q := by exact_mod_cast h1
  omega

theorem pythonRound_int_add_half (k : ℤ) :
    pythonRound ((k : ℚ) + 1/2) = if k % 2 = 0 then k else k + 1 := by
  unfold pythonRound
  have hhalf : ⌊(1/2 : ℚ)⌋ = 0 := by
    rw [Int.floor_eq_zero_iff]
    constructor <;> norm_num
  have hfl : ⌊(k : ℚ) + 1/2⌋ = k := by
    rw [Int.floor_int_add, hhalf, add_zero]
  rw [hfl]
  have hfrac : (k : ℚ) + 1/2 - k = 1/2 := by ring
  rw [hfrac]
  norm_num

/-! Unfolding the gap and duration checks. -/

theorem gapDecisionV_eq_some {cur : Strip} {v : ℚ} {t : ℤ} :
    gapDecisionV cur v = some t ↔
      (0 < v - ((cur.frame_final_end : ℚ) + 1)
        ∧ v - ((cur.frame_final_end : ℚ) + 1) ≤ max_gap)
      ∧ t = pythonRound (v - 1)
      ∧ 0 < (pythonRound (v - 1) : ℚ) - cur.frame_start + 1 := by
  unfold gapDecisionV
  dsimp only
  constructor
  · intro h
    split_ifs at h with h1 h2
    · exact ⟨h1, (Option.some.inj h).symm, h2⟩
  · rintro ⟨h1, rfl, h2⟩
    rw [if_pos h1, if_pos h2]

theorem gapDecisionV_eq_none {cur : Strip} {v : ℚ}
    (h : ¬ (0 < v - ((cur.frame_final_end : ℚ) + 1)
        ∧ v - ((cur.frame_final_end : ℚ) + 1) ≤ max_gap)) :
    gapDecisionV cur v = none := by
  unfold gapDecisionV
  dsimp only
  rw [if_neg h]

theorem end_le_of_gapDecisionV {cur : Strip} {v : ℚ} {t : ℤ}
    (h : gapDecisionV cur v = some t) : cur.frame_final_end ≤ t := by
  obtain ⟨⟨hg, _⟩, rfl, _⟩ := gapDecisionV_eq_some.mp h
  apply le_pythonRound_of_int_lt
  linarith

theorem gapDecisionV_intCast {cur : Strip} {m : ℤ} {t : ℤ}
    (h : gapDecisionV cur (m : ℚ) = some t) :
    t = m - 1 ∧ cur.frame_final_end < t := by
  obtain ⟨⟨hg, _⟩, rfl, _⟩ := gapDecisionV_eq_some.mp h
  have hcast : ((m : ℚ)) - 1 = ((m - 1 : ℤ) : ℚ) := by push_cast; ring
  rw [hcast, pythonRound_intCast]
  refine ⟨rfl, ?_⟩
  have h1 : (cur.frame_final_end : ℚ) + 1 < (m : ℚ) := by linarith
  have h2 : cur.frame_final_end + 1 < m := by exact_mod_cast h1
  omega

/-! The snapshot scan as a plain first-match over the sorted strip list. -/

theorem findNext_eq_find?_aux (strips : List Strip) (cur : Strip) :
    ∀ l : List Strip, (∀ t ∈ l, findStrip strips t.id = some t) →
      findNext strips (stripIds l) cur = l.find? (isNextStrip cur) := by
  intro l
  induction l with
  | nil => intro _; rfl
  | cons t rest ih =>
    intro h
    rw [stripIds_cons, findNext, h t (List.mem_cons_self t rest)]
    cases hp : isNextStrip cur t with
    | true =>
      rw [List.find?_cons_of_pos _ hp]
      simp [hp]
    | false =>
      rw [List.find?_cons_of_neg _ (by simp [hp])]
      simp only [hp, Bool.false_eq_true, if_false]
      exact ih (fun u hu => h u (List.mem_cons_of_mem _ hu))

theorem restAfter_eq_none {ids : List ℕ} {i : ℕ} :
    restAfter ids i = none ↔ i ∉ ids := by
  induction ids with
  | nil => simp [restAfter]
  | cons j rest ih =>
    rw [restAfter]
    by_cases h : j = i
    · simp [h]
    · rw [if_neg h, ih]
      constructor
      · intro hnr hcon
        rcases List.mem_cons.mp hcon with rfl | hc
        · exact h rfl
        · exact hnr hc
      · intro hcon hr
        exact hcon (List.mem_cons_of_mem _ hr)

theorem restAfter_findNext_eq (strips : List Strip) (s : Strip)
    (hwf : s.frame_start ≤ (s.frame_final_end : ℚ)) :
    ∀ (l : List Strip) (r : List ℕ),
      (stripIds l).Nodup →
      (∀ t ∈ l, findStrip strips t.id = some t) →
      List.Sorted allLe l →
      s ∈ l →
      restAfter (stripIds l) s.id = some r →
      findNext strips r s = l.find? (isNextStrip s) := by
  intro l
  induction l with
  | nil => intro r _ _ _ hmem; cases hmem
  | cons t rest ih =>
    intro r hnd hsub hsort hmem hres
    rw [stripIds_cons, restAfter] at hres
    simp only [stripIds_cons, List.nodup_cons] at hnd
    by_cases hts : t.id = s.id
    · rw [if_pos hts] at hres
      obtain rfl : stripIds rest = r := Option.some.inj hres
      have hteq : t = s := by
        rcases List.mem_cons.mp hmem with rfl | hmem'
        · rfl
        · exact absurd (hts ▸ mem_stripIds_of_mem hmem') hnd.1
      subst hteq
      rw [findNext_eq_find?_aux strips t rest (fun u hu => hsub u (List.mem_cons_of_mem _ hu))]
      have hself : isNextStrip t t = false := by
        simp [isNextStrip, not_lt.mpr hwf]
      rw [List.find?_cons_of_neg _ (by simp [hself])]
    · rw [if_neg hts] at hres
      have hmem' : s ∈ rest := by
        rcases List.mem_cons.mp hmem with rfl | h'
        · exact absurd rfl hts
        · exact h'
      have hhead : isNextStrip s t = false := by
        have hle : allLe t s := (List.sorted_cons.mp hsort).1 s hmem'
        unfold allLe at hle
        simp [isNextStrip, not_lt.mpr (le_trans hle hwf)]
      rw [List.find?_cons_of_neg _ (by simp [hhead])]
      exact ih r hnd.2 (fun u hu => hsub u (List.mem_cons_of_mem _ hu))
        (List.sorted_cons.mp hsort).2 hmem' hres

/-- The successor the loop finds for a live, well-formed selected strip is
exactly the first entry of the start-sorted full list that is in the same
channel and starts strictly after the strip's end. -/
theorem initialSucc_eq_find? (strips : List Strip) (s : Strip)
    (Hall : (stripIds strips).Nodup)
    (hfind : findStrip strips s.id = some s)
    (hwf : s.frame_start ≤ (s.frame_final_end : ℚ)) :
    initialSucc strips s.id
      = Option.map (fun t => (s, t))
          ((all_strips_sorted_by_time strips).find? (isNextStrip s)) := by
  unfold initialSucc findSucc
  have hperm := List.perm_insertionSort allLe strips
  have hnd : (stripIds (all_strips_sorted_by_time strips)).Nodup :=
    (perm_sorted_all strips).nodup_iff.mpr Hall
  have hsub : ∀ t ∈ all_strips_sorted_by_time strips, findStrip strips t.id = some t :=
    fun t ht => findStrip_self Hall (hperm.subset ht)
  have hsort : List.Sorted allLe (all_strips_sorted_by_time strips) :=
    List.sorted_insertionSort allLe strips
  have hmem : s ∈ all_strips_sorted_by_time strips :=
    hperm.mem_iff.mpr (findStrip_eq_some hfind).1
  cases hres : restAfter (stripIds (all_strips_sorted_by_time strips)) s.id with
  | none => exact absurd (mem_stripIds_of_mem hmem) (restAfter_eq_none.mp hres)
  | some r =>
    rw [hfind]
    dsimp only
    rw [restAfter_findNext_eq strips s hwf _ r hnd hsub hsort hmem hres]

/-- The first match in a start-sorted list starts no later than any match. -/
theorem find?_sorted_start_min {l : List Strip} {p : Strip → Bool} {T : Strip}
    (hsort : List.Sorted allLe l) (h : l.find? p = some T) :
    ∀ u ∈ l, p u = true → T.frame_start ≤ u.frame_start := by
  induction l with
  | nil => cases h
  | cons t rest ih =>
    intro u hu hpu
    by_cases hpt : p t = true
    · rw [List.find?_cons_of_pos _ hpt] at h
      obtain rfl : t = T := Option.some.inj h
      rcases List.mem_cons.mp hu with rfl | hu'
      · exact le_refl _
      · exact (List.sorted_cons.mp hsort).1 u hu'
    · rw [List.find?_cons_of_neg _ hpt] at h
      rcases List.mem_cons.mp hu with rfl | hu'
      · exact absurd hpu hpt
      · exact ih (List.sorted_cons.mp hsort).2 h u hu' hpu

/-! Counting helpers. -/

theorem countP_eq_one_add_erase {l : List ℕ} {i : ℕ} {p : ℕ → Bool}
    (hmem : i ∈ l) (hp : p i = true) :
    l.countP p = 1 + (l.erase i).countP p := by
  rw [List.Perm.countP_eq p (List.perm_cons_erase hmem), List.countP_cons]
  simp [hp]
  omega

theorem countP_eq_erase_of_not {l : List ℕ} {i : ℕ} {p : ℕ → Bool}
    (hmem : i ∈ l) (hp : p i = false) :
    l.countP p = (l.erase i).countP p := by
  rw [List.Perm.countP_eq p (List.perm_cons_erase hmem), List.countP_cons]
  simp [hp]

/-! Further helpers shared by the claim proofs. -/

theorem isNextStrip_iff {cur t : Strip} :
    isNextStrip cur t = true ↔
      t.channel = cur.channel ∧ (cur.frame_final_end : ℚ) < t.frame_start := by
  simp [isNextStrip]

@[simp] theorem isNextStrip_applyDecision (cur : Strip) (d : Option ℤ) (t : Strip) :
    isNextStrip cur (applyDecision d t) = isNextStrip cur t := by
  unfold isNextStrip applyDecision
  cases d <;> rfl

theorem findSucc_eq_some {live : List Strip} {allIds : List ℕ} {i : ℕ} {cur nxt : Strip}
    (h : findSucc live allIds i = some (cur, nxt)) :
    findStrip live i = some cur
      ∧ ∃ r, restAfter allIds i = some r ∧ findNext live r cur = some nxt := by
  unfold findSucc at h
  cases hr : restAfter allIds i with
  | none => rw [hr] at h; cases h
  | some r =>
    rw [hr] at h
    cases hf : findStrip live i with
    | none => rw [hf] at h; cases h
    | some c =>
      rw [hf] at h
      dsimp only at h
      cases hn : findNext live r c with
      | none => rw [hn] at h; cases h
      | some n =>
        rw [hn] at h
        have hpair := Option.some.inj h
        injection hpair with h1 h2
        subst h1; subst h2
        exact ⟨rfl, r, rfl, hn⟩

theorem initialDecision_as_match (strips : List Strip) (i : ℕ) :
    initialDecision strips i
      = match initialSucc strips i with
        | none => none
        | some p => gapDecision p.1 p.2 := by
  unfold initialDecision decideStrip initialSucc
  cases findSucc strips (stripIds (all_strips_sorted_by_time strips)) i with
  | none => rfl
  | some p => cases p; rfl

theorem initialDecision_some_le {strips : List Strip} {i : ℕ} {s : Strip} {t : ℤ}
    (hlive : findStrip strips i = some s)
    (hdec : initialDecision strips i = some t) :
    s.frame_final_end ≤ t
      ∧ ∃ nxt, initialSucc strips i = some (s, nxt) ∧ gapDecision s nxt = some t := by
  rw [initialDecision_as_match] at hdec
  cases hsucc : initialSucc strips i with
  | none => rw [hsucc] at hdec; cases hdec
  | some p =>
    rw [hsucc] at hdec
    obtain ⟨cur, nxt⟩ := p
    dsimp only at hdec
    have hcur : cur = s := by
      have h1 := (findSucc_eq_some hsucc).1
      rw [hlive] at h1
      exact (Option.some.inj h1).symm
    subst hcur
    exact ⟨end_le_of_gapDecisionV hdec, nxt, rfl, hdec⟩

theorem initialDecision_some_lt {strips : List Strip} {i : ℕ} {s : Strip} {t : ℤ}
    (hlive : findStrip strips i = some s)
    (hdec : initialDecision strips i = some t)
    (Hint : ∀ u ∈ strips, ∃ m : ℤ, u.frame_start = (m : ℚ)) :
    s.frame_final_end < t := by
  obtain ⟨_, nxt, hsucc, hgd⟩ := initialDecision_some_le hlive hdec
  have hmem : nxt ∈ strips := by
    obtain ⟨_, r, _, hfn⟩ := findSucc_eq_some hsucc
    exact (findNext_eq_some hfn).1
  obtain ⟨m, hm⟩ := Hint nxt hmem
  have hv : gapDecisionV s ((m : ℚ)) = some t := by rw [← hm]; exact hgd
  exact (gapDecisionV_intCast hv).2

theorem stripIds_runExtend (strips sel : List Strip) (Hsel : (stripIds sel).Nodup) :
    stripIds (runExtend strips sel).strips = stripIds strips := by
  rw [runExtend_strips_eq strips sel Hsel]
  unfold stripIds
  rw [List.map_map]
  apply List.map_congr_left
  intro s _
  simp

theorem mem_runExtend_strips (strips sel : List Strip) (Hsel : (stripIds sel).Nodup)
    {u2 : Strip} :
    u2 ∈ (runExtend strips sel).strips ↔
      ∃ u ∈ strips,
        u2 = applyDecision (if u.id ∈ stripIds sel then initialDecision strips u.id else none)
          u := by
  rw [runExtend_strips_eq strips sel Hsel, List.mem_map]
  constructor
  · rintro ⟨u, hu, rfl⟩
    exact ⟨u, hu, rfl⟩
  · rintro ⟨u, hu, rfl⟩
    exact ⟨u, hu, rfl⟩

theorem skipOutcome (strips sel : List Strip) (s : Strip)
    (Hsel : (stripIds sel).Nodup) (hs : s ∈ sel)
    (hlive : findStrip strips s.id = some s)
    (hd : initialDecision strips s.id = none) :
    findStrip (runExtend strips sel).strips s.id = some s
    ∧ (runExtend strips sel).processed_count
        = ((stripIds sel).erase s.id).countP
            (fun i => (initialDecision strips i).isSome) := by
  constructor
  · rw [findStrip_runExtend strips sel Hsel s.id, if_pos (mem_stripIds_of_mem hs), hd, hlive]
    rfl
  · rw [runExtend_count_eq strips sel Hsel]
    exact countP_eq_erase_of_not (mem_stripIds_of_mem hs) (by simp [hd])

theorem findStrip_foldl_not_mem (allIds : List ℕ) :
    ∀ (ids : List ℕ) (live : List Strip) (c k : ℕ), k ∉ ids →
      findStrip ((ids.foldl (runStep allIds) (live, c)).1) k = findStrip live k := by
  intro ids
  induction ids with
  | nil => intro live c k _; rfl
  | cons i rest ih =>
    intro live c k hk
    have hki : k ≠ i := fun h => hk (h ▸ List.mem_cons_self i rest)
    have hkr : k ∉ rest := fun h => hk (List.mem_cons_of_mem _ h)
    rw [List.foldl_cons]
    cases hd : decideStrip live allIds i with
    | none =>
      have hstep : runStep allIds (live, c) i = (live, c) := by unfold runStep; rw [hd]
      rw [hstep]
      exact ih live c k hkr
    | some t =>
      have hstep : runStep allIds (live, c) i = (setEnd live i t, c + 1) := by
        unfold runStep; rw [hd]
      rw [hstep, ih _ _ k hkr, findStrip_setEnd]
      cases hf : findStrip live k with
      | none => rfl
      | some s =>
        simp [updEnd_of_ne t (by rw [(findStrip_eq_some hf).2]; exact hki)]

/-! The claims. -/

/-- C9: on an empty selection the run performs no mutation at all, reports a
modified count of zero, and returns the informational "no strips selected"
outcome (the `CANCELLED`, not an error, path of lines 33 to 35). -/
theorem extend_C9_empty_selection (strips : List Strip) :
    runExtend strips [] =
      { strips := strips, processed_count := 0, report := Report.noStripsSelected } := by
  unfold runExtend
  simp

/-- C4: a strip whose id is not among the selected ids is never mutated by
the run: looking it up in the final heap gives exactly what the initial heap
gave. -/
theorem extend_C4_unselected_untouched (strips sel : List Strip) (k : ℕ)
    (hk : k ∉ stripIds sel) :
    findStrip (runExtend strips sel).strips k = findStrip strips k := by
  by_cases hempty : sel.isEmpty
  · obtain rfl := List.isEmpty_iff.mp hempty
    unfold runExtend
    simp
  · rw [runExtend_eq_foldl strips sel hempty]
    exact findStrip_foldl_not_mem _ _ strips 0 k
      (fun h => hk ((perm_sorted_selected sel).subset h))

theorem extend_C4_witness :
    (1 ∉ stripIds [(⟨0, 1, 0, 9⟩ : Strip)])
    ∧ findStrip (runExtend [⟨0, 1, 0, 9⟩, ⟨1, 1, 20, 29⟩] [⟨0, 1, 0, 9⟩]).strips 1
        = findStrip [⟨0, 1, 0, 9⟩, ⟨1, 1, 20, 29⟩] 1 :=
  ⟨by decide, extend_C4_unselected_untouched [⟨0, 1, 0, 9⟩, ⟨1, 1, 20, 29⟩]
    [⟨0, 1, 0, 9⟩] 1 (by decide)⟩

/-- C2: the whole run is determined by the single pre-mutation snapshot: the
full list is sorted by start once before any mutation; each selected strip's
outcome is `initialDecision`, computed from the pre-run heap (its own pre-run
end as the scan anchor and the snapshot's immutable start values as the
candidate set), so earlier extensions in the run never change the candidate
set of potential next strips; the count is the number of selected ids whose
decision is a write. -/
theorem extend_C2_snapshot_semantics (strips sel : List Strip)
    (Hsel : (stripIds sel).Nodup) :
    (runExtend strips sel).strips = strips.map (fun s =>
      applyDecision (if s.id ∈ stripIds sel then initialDecision strips s.id else none) s)
    ∧ (runExtend strips sel).processed_count
        = (stripIds sel).countP (fun i => (initialDecision strips i).isSome) :=
  ⟨runExtend_strips_eq strips sel Hsel, runExtend_count_eq strips sel Hsel⟩

theorem extend_C2_witness :
    ((stripIds [(⟨0, 1, 0, 9⟩ : Strip)]).Nodup)
    ∧ ((runExtend [⟨0, 1, 0, 9⟩, ⟨1, 1, 20, 29⟩] [⟨0, 1, 0, 9⟩]).strips
        = List.map (fun s =>
            applyDecision
              (if s.id ∈ stripIds [(⟨0, 1, 0, 9⟩ : Strip)]
                then initialDecision [⟨0, 1, 0, 9⟩, ⟨1, 1, 20, 29⟩] s.id else none) s)
            [⟨0, 1, 0, 9⟩, ⟨1, 1, 20, 29⟩]
      ∧ (runExtend [⟨0, 1, 0, 9⟩, ⟨1, 1, 20, 29⟩] [⟨0, 1, 0, 9⟩]).processed_count
        = (stripIds [(⟨0, 1, 0, 9⟩ : Strip)]).countP
            (fun i => (initialDecision [⟨0, 1, 0, 9⟩, ⟨1, 1, 20, 29⟩] i).isSome)) :=
  ⟨by decide, extend_C2_snapshot_semantics [⟨0, 1, 0, 9⟩, ⟨1, 1, 20, 29⟩]
    [⟨0, 1, 0, 9⟩] (by decide)⟩

/-- C1: for a selected strip `S` (present in the collection, with
`start ≤ end`) whose successor `T` — the first strip of the start-sorted
full list in the same channel with `T.start > S.end` — exists, has an
integer start `m`, and yields a gap `g = T.start - (S.end + 1)` with
`0 < g ≤ max_gap`, the run sets `S.end` to `T.start - 1` and the modified
count includes `S`: it is one plus the count over the other selected ids. -/
theorem extend_C1_gap_filled (strips sel : List Strip) (s T : Strip) (m : ℤ)
    (Hall : (stripIds strips).Nodup)
    (Hsel : (stripIds sel).Nodup)
    (hs : s ∈ sel)
    (hlive : findStrip strips s.id = some s)
    (hwf : s.frame_start ≤ (s.frame_final_end : ℚ))
    (hT : (all_strips_sorted_by_time strips).find? (isNextStrip s) = some T)
    (hm : T.frame_start = (m : ℚ))
    (hgap : 0 < T.frame_start - ((s.frame_final_end : ℚ) + 1)
        ∧ T.frame_start - ((s.frame_final_end : ℚ) + 1) ≤ max_gap) :
    findStrip (runExtend strips sel).strips s.id
        = some { s with frame_final_end := m - 1 }
    ∧ (runExtend strips sel).processed_count
        = 1 + ((stripIds sel).erase s.id).countP
            (fun i => (initialDecision strips i).isSome) := by
  have hdec : initialDecision strips s.id = some (m - 1) := by
    rw [initialDecision_as_match, initialSucc_eq_find? strips s Hall hlive hwf, hT]
    dsimp only [Option.map_some']
    show gapDecisionV s T.frame_start = some (m - 1)
    rw [hm]
    apply gapDecisionV_eq_some.mpr
    have hcast : ((m : ℚ)) - 1 = ((m - 1 : ℤ) : ℚ) := by push_cast; ring
    rw [hm] at hgap
    refine ⟨hgap, ?_, ?_⟩
    · rw [hcast, pythonRound_intCast]
    · rw [hcast, pythonRound_intCast]
      push_cast
      have h1 : (s.frame_final_end : ℚ) + 1 < (m : ℚ) := by linarith [hgap.1]
      linarith [hwf]
  constructor
  · rw [findStrip_runExtend strips sel Hsel s.id, if_pos (mem_stripIds_of_mem hs),
      hdec, hlive]
    rfl
  · rw [runExtend_count_eq strips sel Hsel]
    exact countP_eq_one_add_erase (mem_stripIds_of_mem hs) (by simp [hdec])

theorem extend_C1_witness :
    findStrip (runExtend [⟨0, 1, 0, 9⟩, ⟨1, 1, 20, 29⟩] [⟨0, 1, 0, 9⟩]).strips 0
        = some ⟨0, 1, 0, 19⟩
    ∧ (runExtend [⟨0, 1, 0, 9⟩, ⟨1, 1, 20, 29⟩] [⟨0, 1, 0, 9⟩]).processed_count
        = 1 + ((stripIds [(⟨0, 1, 0, 9⟩ : Strip)]).erase 0).countP
            (fun i => (initialDecision [⟨0, 1, 0, 9⟩, ⟨1, 1, 20, 29⟩] i).isSome) :=
  extend_C1_gap_filled [⟨0, 1, 0, 9⟩, ⟨1, 1, 20, 29⟩] [⟨0, 1, 0, 9⟩]
    ⟨0, 1, 0, 9⟩ ⟨1, 1, 20, 29⟩ 20 (by decide) (by decide) (by decide) (by decide)
    (by decide) (by decide) (by decide) ⟨by decide, by decide⟩

/-- C3: a selected strip's end is written only when the scan finds a
same-channel successor and the gap lies in `(0, max_gap]`; and in each of
the enumerated skip cases — no successor before the snapshot ends, gap `≤ 0`
(touching or overlapping), gap `> max_gap` — the strip comes out of the run
unchanged and the reported count excludes it. -/
theorem extend_C3_guarded_mutation (strips sel : List Strip) (s : Strip)
    (Hsel : (stripIds sel).Nodup)
    (hs : s ∈ sel)
    (hlive : findStrip strips s.id = some s) :
    (∀ s', findStrip (runExtend strips sel).strips s.id = some s' →
        s'.frame_final_end ≠ s.frame_final_end →
        ∃ T, initialSucc strips s.id = some (s, T)
          ∧ 0 < T.frame_start - ((s.frame_final_end : ℚ) + 1)
          ∧ T.frame_start - ((s.frame_final_end : ℚ) + 1) ≤ max_gap)
    ∧ ((initialSucc strips s.id = none
        ∨ ∃ T, initialSucc strips s.id = some (s, T)
            ∧ (T.frame_start - ((s.frame_final_end : ℚ) + 1) ≤ 0
              ∨ max_gap < T.frame_start - ((s.frame_final_end : ℚ) + 1))) →
        findStrip (runExtend strips sel).strips s.id = some s
        ∧ (runExtend strips sel).processed_count
            = ((stripIds sel).erase s.id).countP
                (fun i => (initialDecision strips i).isSome)) := by
  constructor
  · intro s' hfinal hne
    rw [findStrip_runExtend strips sel Hsel s.id, if_pos (mem_stripIds_of_mem hs),
      hlive] at hfinal
    obtain rfl : applyDecision (initialDecision strips s.id) s = s' :=
      Option.some.inj hfinal
    cases hd : initialDecision strips s.id with
    | none =>
      rw [hd, applyDecision_none] at hne
      exact absurd rfl hne
    | some t =>
      obtain ⟨_, nxt, hsucc, hgd⟩ := initialDecision_some_le hlive hd
      have hv : gapDecisionV s nxt.frame_start = some t := hgd
      obtain ⟨⟨h1, h2⟩, _, _⟩ := gapDecisionV_eq_some.mp hv
      exact ⟨nxt, hsucc, h1, h2⟩
  · intro hcase
    have hd : initialDecision strips s.id = none := by
      rw [initialDecision_as_match]
      rcases hcase with hnone | ⟨T, hsucc, hout⟩
      · rw [hnone]
      · rw [hsucc]
        dsimp only
        apply gapDecisionV_eq_none
        rintro ⟨ha, hb⟩
        rcases hout with h | h
        · linarith
        · linarith
    exact skipOutcome strips sel s Hsel hs hlive hd

theorem extend_C3_witness :
    findStrip (runExtend [⟨0, 1, 0, 9⟩, ⟨1, 1, 6010, 6020⟩] [⟨0, 1, 0, 9⟩]).strips 0
        = some ⟨0, 1, 0, 9⟩
    ∧ (runExtend [⟨0, 1, 0, 9⟩, ⟨1, 1, 6010, 6020⟩] [⟨0, 1, 0, 9⟩]).processed_count
        = ((stripIds [(⟨0, 1, 0, 9⟩ : Strip)]).erase 0).countP
            (fun i => (initialDecision [⟨0, 1, 0, 9⟩, ⟨1, 1, 6010, 6020⟩] i).isSome) :=
  (extend_C3_guarded_mutation [⟨0, 1, 0, 9⟩, ⟨1, 1, 6010, 6020⟩] [⟨0, 1, 0, 9⟩]
    ⟨0, 1, 0, 9⟩ (by decide) (by decide) (by decide)).2
    (Or.inr ⟨⟨1, 1, 6010, 6020⟩, by decide, Or.inr (by decide)⟩)

/-- C7: when a successor is found and the gap is in range but the rounded
target end would make the duration `target - start + 1` non-positive, the
strip is skipped: its end is unchanged, it is not counted, and the rest of
the run is unaffected (the count still counts the other selected ids). -/
theorem extend_C7_duration_guard (strips sel : List Strip) (s T : Strip)
    (Hsel : (stripIds sel).Nodup)
    (hs : s ∈ sel)
    (hlive : findStrip strips s.id = some s)
    (hsucc : initialSucc strips s.id = some (s, T))
    (hgap : 0 < T.frame_start - ((s.frame_final_end : ℚ) + 1)
        ∧ T.frame_start - ((s.frame_final_end : ℚ) + 1) ≤ max_gap)
    (hdur : (pythonRound (T.frame_start - 1) : ℚ) - s.frame_start + 1 ≤ 0) :
    initialDecision strips s.id = none
    ∧ findStrip (runExtend strips sel).strips s.id = some s
    ∧ (runExtend strips sel).processed_count
        = ((stripIds sel).erase s.id).countP
            (fun i => (initialDecision strips i).isSome) := by
  have hd : initialDecision strips s.id = none := by
    rw [initialDecision_as_match, hsucc]
    dsimp only
    show gapDecisionV s T.frame_start = none
    unfold gapDecisionV
    dsimp only
    rw [if_pos hgap, if_neg (not_lt.mpr hdur)]
  obtain ⟨h1, h2⟩ := skipOutcome strips sel s Hsel hs hlive hd
  exact ⟨hd, h1, h2⟩

theorem extend_C7_witness :
    initialDecision [⟨0, 1, 5, 0⟩, ⟨1, 1, 5, 9⟩] 0 = none
    ∧ findStrip (runExtend [⟨0, 1, 5, 0⟩, ⟨1, 1, 5, 9⟩] [⟨0, 1, 5, 0⟩]).strips 0
        = some ⟨0, 1, 5, 0⟩
    ∧ (runExtend [⟨0, 1, 5, 0⟩, ⟨1, 1, 5, 9⟩] [⟨0, 1, 5, 0⟩]).processed_count
        = ((stripIds [(⟨0, 1, 5, 0⟩ : Strip)]).erase 0).countP
            (fun i => (initialDecision [⟨0, 1, 5, 0⟩, ⟨1, 1, 5, 9⟩] i).isSome) :=
  extend_C7_duration_guard [⟨0, 1, 5, 0⟩, ⟨1, 1, 5, 9⟩] [⟨0, 1, 5, 0⟩]
    ⟨0, 1, 5, 0⟩ ⟨1, 1, 5, 9⟩ (by decide) (by decide) (by decide) (by decide)
    ⟨by decide, by decide⟩ (by decide)

/-- C8: a selected strip whose id is absent from the full collection is
skipped: its decision is a no-write, the final heap still has no strip with
that id, the count excludes it, and the run still completes normally,
reporting the count through the extended/none-extended summary (never the
empty-selection outcome). -/
theorem extend_C8_missing_strip (strips sel : List Strip) (s : Strip)
    (Hsel : (stripIds sel).Nodup)
    (hs : s ∈ sel)
    (habsent : s.id ∉ stripIds strips) :
    initialDecision strips s.id = none
    ∧ findStrip (runExtend strips sel).strips s.id = none
    ∧ (runExtend strips sel).processed_count
        = ((stripIds sel).erase s.id).countP
            (fun i => (initialDecision strips i).isSome)
    ∧ (runExtend strips sel).report
        = (if 0 < (runExtend strips sel).processed_count
            then Report.finishedExtended (runExtend strips sel).processed_count
            else Report.finishedNoneExtended) := by
  have hempty : ¬ sel.isEmpty := by
    cases sel with
    | nil => cases hs
    | cons a l => simp
  have habs' : s.id ∉ stripIds (all_strips_sorted_by_time strips) :=
    fun h => habsent ((perm_sorted_all strips).subset h)
  have hsuccnone : initialSucc strips s.id = none := by
    unfold initialSucc findSucc
    rw [restAfter_eq_none.mpr habs']
  have hd : initialDecision strips s.id = none := by
    rw [initialDecision_as_match, hsuccnone]
  have hfs : findStrip strips s.id = none := by
    unfold findStrip
    rw [List.find?_eq_none]
    intro u hu hbeq
    have hid : u.id = s.id := by simpa using hbeq
    exact habsent (hid ▸ mem_stripIds_of_mem hu)
  refine ⟨hd, ?_, ?_, ?_⟩
  · rw [findStrip_runExtend strips sel Hsel s.id, hfs]
    rfl
  · rw [runExtend_count_eq strips sel Hsel]
    exact countP_eq_erase_of_not (mem_stripIds_of_mem hs) (by simp [hd])
  · rw [runExtend_eq_foldl strips sel hempty]

theorem extend_C8_witness :
    initialDecision [(⟨1, 1, 0, 9⟩ : Strip)] 0 = none
    ∧ findStrip (runExtend [⟨1, 1, 0, 9⟩] [⟨0, 2, 50, 60⟩]).strips 0 = none
    ∧ (runExtend [⟨1, 1, 0, 9⟩] [⟨0, 2, 50, 60⟩]).processed_count
        = ((stripIds [(⟨0, 2, 50, 60⟩ : Strip)]).erase 0).countP
            (fun i => (initialDecision [(⟨1, 1, 0, 9⟩ : Strip)] i).isSome)
    ∧ (runExtend [⟨1, 1, 0, 9⟩] [⟨0, 2, 50, 60⟩]).report
        = (if 0 < (runExtend [⟨1, 1, 0, 9⟩] [⟨0, 2, 50, 60⟩]).processed_count
            then Report.finishedExtended
              (runExtend [⟨1, 1, 0, 9⟩] [⟨0, 2, 50, 60⟩]).processed_count
            else Report.finishedNoneExtended) :=
  extend_C8_missing_strip [⟨1, 1, 0, 9⟩] [⟨0, 2, 50, 60⟩] ⟨0, 2, 50, 60⟩
    (by decide) (by decide) (by decide)

/-- C10: the run never shortens any strip: every strip of the initial heap
survives with an end frame at least its old one; and whenever the run writes
a strip's end (its id is selected and the decision is a write, which, with
integer start frames, forces `target = T.start - 1 > old end`), the new end
is strictly greater than the old one. -/
theorem extend_C10_never_shrinks (strips sel : List Strip) (k : ℕ) (s : Strip)
    (Hsel : (stripIds sel).Nodup)
    (Hint : ∀ u ∈ strips, ∃ m : ℤ, u.frame_start = (m : ℚ))
    (hlive : findStrip strips k = some s) :
    ∃ s', findStrip (runExtend strips sel).strips k = some s'
      ∧ s.frame_final_end ≤ s'.frame_final_end
      ∧ ∀ t, k ∈ stripIds sel → initialDecision strips k = some t →
          s'.frame_final_end = t ∧ s.frame_final_end < t := by
  by_cases hk : k ∈ stripIds sel
  · rw [findStrip_runExtend strips sel Hsel k, if_pos hk, hlive]
    cases hdec : initialDecision strips k with
    | none =>
      refine ⟨s, rfl, le_refl _, ?_⟩
      intro t _ h
      cases h
    | some t0 =>
      refine ⟨{ s with frame_final_end := t0 }, rfl, ?_, ?_⟩
      · exact (initialDecision_some_le hlive hdec).1
      · intro t _ h
        obtain rfl : t0 = t := Option.some.inj h
        exact ⟨rfl, initialDecision_some_lt hlive hdec Hint⟩
  · rw [findStrip_runExtend strips sel Hsel k, if_neg hk, hlive]
    exact ⟨s, rfl, le_refl _, fun t hk2 _ => absurd hk2 hk⟩

theorem extend_C10_witness :
    ∃ s', findStrip (runExtend [⟨0, 1, 0, 9⟩, ⟨1, 1, 20, 29⟩] [⟨0, 1, 0, 9⟩]).strips 0
        = some s'
      ∧ (9 : ℤ) ≤ s'.frame_final_end
      ∧ ∀ t, 0 ∈ stripIds [(⟨0, 1, 0, 9⟩ : Strip)] →
          initialDecision [⟨0, 1, 0, 9⟩, ⟨1, 1, 20, 29⟩] 0 = some t →
          s'.frame_final_end = t ∧ (9 : ℤ) < t :=
  extend_C10_never_shrinks [⟨0, 1, 0, 9⟩, ⟨1, 1, 20, 29⟩] [⟨0, 1, 0, 9⟩] 0
    ⟨0, 1, 0, 9⟩ (by decide)
    (by
      intro u hu
      rcases List.mem_cons.mp hu with rfl | hu'
      · exact ⟨0, by decide⟩
      · rcases List.mem_cons.mp hu' with rfl | hu''
        · exact ⟨20, by decide⟩
        · cases hu'')
    (by decide)

/-- C5 counterexample: strip 0 (channel 1, frames 0 to 9) is selected and
its successor starts at frame 21.5, so the target end is the half-integer
20.5.  Rounding to the integer further from zero would write 21; the run
writes 20, the even neighbour (Python 3 rounds ties to even), so the claimed
tie-break "away from zero" is false on this input. -/
theorem extend_C5_counterexample :
    ((⟨1, 1, 43/2, 30⟩ : Strip).frame_start - 1 = (20 : ℚ) + 1/2)
    ∧ findStrip (runExtend [⟨0, 1, 0, 9⟩, ⟨1, 1, 43/2, 30⟩] [⟨0, 1, 0, 9⟩]).strips 0
        = some ⟨0, 1, 0, 20⟩
    ∧ ¬ findStrip (runExtend [⟨0, 1, 0, 9⟩, ⟨1, 1, 43/2, 30⟩] [⟨0, 1, 0, 9⟩]).strips 0
        = some ⟨0, 1, 0, 21⟩ := by decide

/-- C5 amended: when the extension is applied, the value written as the new
end is `T.start - 1` coerced to an integer by Python 3's `round`: nearest
integer with ties to the EVEN integer; in particular on a half-integer
target `k + 1/2` the applied end is `k` when `k` is even and `k + 1`
otherwise (the even member of the pair, not the one further from zero). -/
theorem extend_C5_round_half_even (strips sel : List Strip) (s T : Strip) (k : ℤ)
    (Hsel : (stripIds sel).Nodup)
    (hs : s ∈ sel)
    (hlive : findStrip strips s.id = some s)
    (hwf : s.frame_start ≤ (s.frame_final_end : ℚ))
    (hsucc : initialSucc strips s.id = some (s, T))
    (hgap : 0 < T.frame_start - ((s.frame_final_end : ℚ) + 1)
        ∧ T.frame_start - ((s.frame_final_end : ℚ) + 1) ≤ max_gap)
    (htie : T.frame_start - 1 = (k : ℚ) + 1/2) :
    findStrip (runExtend strips sel).strips s.id
      = some { s with frame_final_end := pythonRound (T.frame_start - 1) }
    ∧ pythonRound (T.frame_start - 1) = (if k % 2 = 0 then k else k + 1) := by
  have htarget : pythonRound (T.frame_start - 1) = if k % 2 = 0 then k else k + 1 := by
    rw [htie, pythonRound_int_add_half]
  have hd : initialDecision strips s.id = some (pythonRound (T.frame_start - 1)) := by
    rw [initialDecision_as_match, hsucc]
    dsimp only
    show gapDecisionV s T.frame_start = _
    apply gapDecisionV_eq_some.mpr
    refine ⟨hgap, rfl, ?_⟩
    have h1 : (s.frame_final_end : ℚ) < T.frame_start - 1 := by linarith [hgap.1]
    have h2 : s.frame_final_end ≤ pythonRound (T.frame_start - 1) :=
      le_pythonRound_of_int_lt h1
    have h3 : (s.frame_final_end : ℚ) ≤ (pythonRound (T.frame_start - 1) : ℚ) := by
      exact_mod_cast h2
    linarith [hwf]
  constructor
  · rw [findStrip_runExtend strips sel Hsel s.id, if_pos (mem_stripIds_of_mem hs),
      hd, hlive]
    rfl
  · exact htarget

theorem extend_C5_witness :
    findStrip (runExtend [⟨0, 1, 0, 9⟩, ⟨1, 1, 43/2, 30⟩] [⟨0, 1, 0, 9⟩]).strips 0
      = some { (⟨0, 1, 0, 9⟩ : Strip) with
          frame_final_end := pythonRound ((⟨1, 1, 43/2, 30⟩ : Strip).frame_start - 1) }
    ∧ pythonRound ((⟨1, 1, 43/2, 30⟩ : Strip).frame_start - 1)
      = (if (20 : ℤ) % 2 = 0 then 20 else 20 + 1) :=
  extend_C5_round_half_even [⟨0, 1, 0, 9⟩, ⟨1, 1, 43/2, 30⟩] [⟨0, 1, 0, 9⟩]
    ⟨0, 1, 0, 9⟩ ⟨1, 1, 43/2, 30⟩ 20 (by decide) (by decide) (by decide) (by decide)
    (by decide) ⟨by decide, by decide⟩ (by decide)

/-- After one run, the first match of a successor search in the re-sorted
final list starts exactly where the first match of a corresponding pre-run
search started, provided the new predicate is at least as strict on the old
strips and still accepts the old match. -/
theorem find?_final_start (strips sel : List Strip) (Hsel : (stripIds sel).Nodup)
    (c1 c2 nxt : Strip)
    (hf1 : (all_strips_sorted_by_time strips).find? (isNextStrip c1) = some nxt)
    (himp : ∀ u ∈ strips, isNextStrip c2 u = true → isNextStrip c1 u = true)
    (hnxt2 : isNextStrip c2 nxt = true) :
    ∃ T2, (all_strips_sorted_by_time (runExtend strips sel).strips).find? (isNextStrip c2)
        = some T2 ∧ T2.frame_start = nxt.frame_start := by
  have hnxtmem : nxt ∈ strips :=
    (List.perm_insertionSort allLe strips).subset (List.mem_of_find?_eq_some hf1)
  have hGmem : applyDecision
      (if nxt.id ∈ stripIds sel then initialDecision strips nxt.id else none) nxt
        ∈ (runExtend strips sel).strips :=
    (mem_runExtend_strips strips sel Hsel).mpr ⟨nxt, hnxtmem, rfl⟩
  have hGpred : isNextStrip c2 (applyDecision
      (if nxt.id ∈ stripIds sel then initialDecision strips nxt.id else none) nxt)
        = true := by
    rw [isNextStrip_applyDecision]; exact hnxt2
  have hGmem2 : applyDecision
      (if nxt.id ∈ stripIds sel then initialDecision strips nxt.id else none) nxt
        ∈ all_strips_sorted_by_time (runExtend strips sel).strips :=
    (List.perm_insertionSort allLe (runExtend strips sel).strips).mem_iff.mpr hGmem
  have hsome : ((all_strips_sorted_by_time (runExtend strips sel).strips).find?
      (isNextStrip c2)).isSome = true :=
    List.find?_isSome.mpr ⟨_, hGmem2, hGpred⟩
  obtain ⟨T2, hT2⟩ := Option.isSome_iff_exists.mp hsome
  refine ⟨T2, hT2, ?_⟩
  obtain ⟨u, hu, hTu⟩ := (mem_runExtend_strips strips sel Hsel).mp
    ((List.perm_insertionSort allLe (runExtend strips sel).strips).subset
      (List.mem_of_find?_eq_some hT2))
  have hT2pred : isNextStrip c2 T2 = true := List.find?_some hT2
  have hupred : isNextStrip c1 u = true := by
    apply himp u hu
    rw [hTu, isNextStrip_applyDecision] at hT2pred
    exact hT2pred
  have hT2start : T2.frame_start = u.frame_start := by
    rw [hTu, applyDecision_frame_start]
  have hmin1 : nxt.frame_start ≤ u.frame_start :=
    find?_sorted_start_min (List.sorted_insertionSort allLe strips) hf1 u
      ((List.perm_insertionSort allLe strips).mem_iff.mpr hu) hupred
  have hmin2 : T2.frame_start ≤ nxt.frame_start := by
    have := find?_sorted_start_min
      (List.sorted_insertionSort allLe (runExtend strips sel).strips) hT2 _ hGmem2 hGpred
    rw [applyDecision_frame_start] at this
    exact this
  rw [hT2start]
  exact le_antisymm (hT2start ▸ hmin2) hmin1

/-- C6: the operation is idempotent: running it again right after a run, on
the same selection (same ids, with integer start frames, well-formed
selected strips consistent with the collection), modifies nothing — every
gap the first run closed is now 0, every strip the first run skipped is
skipped again for the same reason — so the second run's modified count is
0. -/
theorem extend_C6_idempotent (strips sel sel2 : List Strip)
    (Hall : (stripIds strips).Nodup)
    (Hsel : (stripIds sel).Nodup)
    (Hwf : ∀ s ∈ sel, s.frame_start ≤ (s.frame_final_end : ℚ))
    (Hcons : ∀ s ∈ sel, findStrip strips s.id = some s)
    (Hint : ∀ u ∈ strips, ∃ m : ℤ, u.frame_start = (m : ℚ))
    (hids : stripIds sel2 = stripIds sel) :
    (runExtend (runExtend strips sel).strips sel2).processed_count = 0 := by
  have Hsel2 : (stripIds sel2).Nodup := by rw [hids]; exact Hsel
  rw [runExtend_count_eq (runExtend strips sel).strips sel2 Hsel2, hids]
  apply List.countP_eq_zero.mpr
  intro i hi
  obtain ⟨s, hs, hid⟩ := List.mem_map.mp hi
  subst hid
  have hlive : findStrip strips s.id = some s := Hcons s hs
  have hwf : s.frame_start ≤ (s.frame_final_end : ℚ) := Hwf s hs
  have hkmem : s.id ∈ stripIds sel := mem_stripIds_of_mem hs
  have Hall2 : (stripIds (runExtend strips sel).strips).Nodup := by
    rw [stripIds_runExtend strips sel Hsel]; exact Hall
  suffices hnone : initialDecision (runExtend strips sel).strips s.id = none by
    simp [hnone]
  cases hd : initialDecision strips s.id with
  | none =>
    have hlive2 : findStrip (runExtend strips sel).strips s.id = some s := by
      rw [findStrip_runExtend strips sel Hsel s.id, if_pos hkmem, hd, hlive]
      rfl
    have hform := initialSucc_eq_find? (runExtend strips sel).strips s Hall2 hlive2 hwf
    cases hf1 : (all_strips_sorted_by_time strips).find? (isNextStrip s) with
    | none =>
      have hnone2 : (all_strips_sorted_by_time (runExtend strips sel).strips).find?
          (isNextStrip s) = none := by
        rw [List.find?_eq_none]
        intro u2 hu2
        obtain ⟨u, hu, rfl⟩ := (mem_runExtend_strips strips sel Hsel).mp
          ((List.perm_insertionSort allLe (runExtend strips sel).strips).subset hu2)
        rw [isNextStrip_applyDecision]
        exact List.find?_eq_none.mp hf1 u
          ((List.perm_insertionSort allLe strips).mem_iff.mpr hu)
      rw [initialDecision_as_match, hform, hnone2]
      rfl
    | some nxt =>
      have hgd1 : gapDecision s nxt = none := by
        have h := hd
        rw [initialDecision_as_match, initialSucc_eq_find? strips s Hall hlive hwf,
          hf1] at h
        simpa using h
      obtain ⟨T2, hT2, hT2start⟩ := find?_final_start strips sel Hsel s s nxt hf1
        (fun u _ hp => hp) (List.find?_some hf1)
      rw [initialDecision_as_match, hform, hT2]
      dsimp only [Option.map_some']
      show gapDecisionV s T2.frame_start = none
      rw [hT2start]
      exact hgd1
  | some t =>
    have hlive2 : findStrip (runExtend strips sel).strips s.id
        = some { s with frame_final_end := t } := by
      rw [findStrip_runExtend strips sel Hsel s.id, if_pos hkmem, hd, hlive]
      rfl
    obtain ⟨hle, nxt, hsucc1, hgd1⟩ := initialDecision_some_le hlive hd
    have hf1 : (all_strips_sorted_by_time strips).find? (isNextStrip s) = some nxt := by
      have h := initialSucc_eq_find? strips s Hall hlive hwf
      rw [hsucc1] at h
      cases hff : (all_strips_sorted_by_time strips).find? (isNextStrip s) with
      | none => rw [hff] at h; cases h
      | some T =>
        rw [hff] at h
        have hpair := Option.some.inj h
        injection hpair with h1 h2
        rw [h2]
    have hnxtmem : nxt ∈ strips :=
      (List.perm_insertionSort allLe strips).subset (List.mem_of_find?_eq_some hf1)
    have hnxtpred : isNextStrip s nxt = true := List.find?_some hf1
    obtain ⟨m, hm⟩ := Hint nxt hnxtmem
    have hv : gapDecisionV s ((m : ℚ)) = some t := by rw [← hm]; exact hgd1
    obtain ⟨ht, hlt⟩ := gapDecisionV_intCast hv
    have hwf2 : ({ s with frame_final_end := t } : Strip).frame_start
        ≤ (({ s with frame_final_end := t } : Strip).frame_final_end : ℚ) := by
      show s.frame_start ≤ (t : ℚ)
      have hc : (s.frame_final_end : ℚ) < (t : ℚ) := by exact_mod_cast hlt
      linarith
    have hform := initialSucc_eq_find? (runExtend strips sel).strips
      { s with frame_final_end := t } Hall2 hlive2 hwf2
    have hid2 : ({ s with frame_final_end := t } : Strip).id = s.id := rfl
    rw [hid2] at hform
    have hnxt2 : isNextStrip { s with frame_final_end := t } nxt = true := by
      apply isNextStrip_iff.mpr
      obtain ⟨hch, _⟩ := isNextStrip_iff.mp hnxtpred
      refine ⟨hch, ?_⟩
      show (t : ℚ) < nxt.frame_start
      rw [hm, ht]
      push_cast
      linarith
    have himp : ∀ u ∈ strips, isNextStrip { s with frame_final_end := t } u = true →
        isNextStrip s u = true := by
      intro u _ hp
      obtain ⟨hch, hlt2⟩ := isNextStrip_iff.mp hp
      apply isNextStrip_iff.mpr
      refine ⟨hch, ?_⟩
      have h1 : (s.frame_final_end : ℚ) < (t : ℚ) := by exact_mod_cast hlt
      exact lt_trans h1 hlt2
    obtain ⟨T2, hT2, hT2start⟩ := find?_final_start strips sel Hsel s
      { s with frame_final_end := t } nxt hf1 himp hnxt2
    rw [initialDecision_as_match, hform, hT2]
    dsimp only [Option.map_some']
    show gapDecisionV { s with frame_final_end := t } T2.frame_start = none
    apply gapDecisionV_eq_none
    rintro ⟨hpos, _⟩
    rw [hT2start, hm] at hpos
    have hfe : (({ s with frame_final_end := t } : Strip).frame_final_end : ℚ)
        = (t : ℚ) := rfl
    rw [hfe, ht] at hpos
    push_cast at hpos
    linarith

theorem extend_C6_witness :
    (runExtend (runExtend [⟨0, 1, 0, 9⟩, ⟨1, 1, 20, 29⟩] [⟨0, 1, 0, 9⟩]).strips
      [⟨0, 1, 0, 19⟩]).processed_count = 0 :=
  extend_C6_idempotent [⟨0, 1, 0, 9⟩, ⟨1, 1, 20, 29⟩] [⟨0, 1, 0, 9⟩] [⟨0, 1, 0, 19⟩]
    (by decide) (by decide)
    (by intro u hu; rcases List.mem_cons.mp hu with rfl | hu'
        · decide
        · cases hu')
    (by intro u hu; rcases List.mem_cons.mp hu with rfl | hu'
        · decide
        · cases hu')
    (by
      intro u hu
      rcases List.mem_cons.mp hu with rfl | hu'
      · exact ⟨0, by decide⟩
      · rcases List.mem_cons.mp hu' with rfl | hu''
        · exact ⟨20, by decide⟩
        · cases hu'')
    (by decide)

example : runExtend [⟨0, 1, 0, 9⟩, ⟨1, 1, 6010, 6020⟩] [⟨0, 1, 0, 9⟩] =
    ⟨[⟨0, 1, 0, 9⟩, ⟨1, 1, 6010, 6020⟩], 0, Report.finishedNoneExtended⟩ := by decide

example : runExtend [⟨0, 1, 0, 9⟩] [] = ⟨[⟨0, 1, 0, 9⟩], 0, Report.noStripsSelected⟩ := by
  decide

example : runExtend [⟨0, 1, 0, 9⟩, ⟨1, 1, 43/2, 30⟩] [⟨0, 1, 0, 9⟩] =
    ⟨[⟨0, 1, 0, 20⟩, ⟨1, 1, 43/2, 30⟩], 1, Report.finishedExtended 1⟩ := by decide

example : runExtend [⟨0, 1, 5, 0⟩, ⟨1, 1, 5, 9⟩] [⟨0, 1, 5, 0⟩] =
    ⟨[⟨0, 1, 5, 0⟩, ⟨1, 1, 5, 9⟩], 0, Report.finishedNoneExtended⟩ := by decide
